import Mathlib

/-!
Shallow embedding of the registry-credential resolution core of
`src/docker/provider.go` (package `docker` of terraform-provider-docker).

Go strings are modelled as Lean `String`; the byte level of base64 decoding
is modelled as `List Nat` (each element a byte value `< 256`), matching Go
strings being byte strings.  Go maps are modelled as association lists with
`mapInsert` providing the `m[k] = v` overwrite semantics; Go map iteration
order (which is unspecified) is fixed to list order.  Errors returned through
Go `error` values are modelled by the inductive `GoError`; Go wraps some of
them with `fmt.Errorf` message prefixes, which only affects presentation,
not which structured error occurred.  JSON file content is modelled as
`Except String Json`: `.error msg` stands for content that is not
syntactically valid JSON (both `json.Unmarshal` calls fail with the syntax
error `msg`), `.ok j` for well-formed JSON with parse tree `j`.
-/

/-- Modelled from the spec: `normalizeRegistryAddress` is called by
`providerSetToRegistryAuth` (src/docker/provider.go lines 178 and 207) but its
definition is not under src/.  Per spec section 4.1 its algorithm is: strip a
trailing `/` if present, and that is the entirety of the normalization (no
scheme stripping, no case-folding). -/
def normalizeRegistryAddress (s : String) : String :=
  match s.data.getLast? with
  | some c => if c = '/' then String.mk s.data.dropLast else s
  | none => s

/-- Go map write `m[k] = v` on an association list: replace the binding of
`k` in place if present, else append it. -/
def mapInsert {α : Type} (k : String) (v : α) : List (String × α) → List (String × α)
  | [] => [(k, v)]
  | (k2, v2) :: rest => if k2 = k then (k, v) :: rest else (k2, v2) :: mapInsert k v rest

/-- Errors produced by the resolution core, one constructor per `error`
value the Go code can return.  `registryNotFound` carries the normalized
requested address and the file path, exactly the two values interpolated
into the Go not-found error message (registry config not found in file)
(src/docker/provider.go line 215). -/
inductive GoError : Type where
  /-- `user.Current()` failed while expanding a leading `~/`. -/
  | homeDirError (msg : String)
  /-- `os.Open` failed; carries the path that could not be opened. -/
  | fileOpen (path : String)
  /-- Content of the config file is not syntactically valid JSON; carries the
  underlying parser message. -/
  | jsonSyntax (msg : String)
  /-- Content is valid JSON but fits neither credentials-file shape. -/
  | jsonType
  /-- `base64.StdEncoding.DecodeString` failed; carries its message. -/
  | base64 (msg : String)
  /-- `ErrCannotParseDockercfg`: decoded auth bytes contain no colon. -/
  | malformedCredential
  /-- No entry of the file matched; carries the normalized requested address
  and the file path (src/docker/provider.go lines 214-217). -/
  | registryNotFound (address : String) (path : String)
deriving DecidableEq, Repr

/-- Data model of `dockerConfig` (src/docker/provider.go lines 164-167): one
entry of the credentials file, with JSON fields `auth` and `email`. -/
structure dockerConfig : Type where
  auth : String
  email : String
deriving DecidableEq, Repr

/-- Data model of the used fields of `types.AuthConfig` (the resolved
credential record). -/
structure AuthConfig : Type where
  username : String
  password : String
  email : String
  serverAddress : String
  auth : String
deriving DecidableEq, Repr

/-- Data model of `AuthConfigs` (src/docker/provider.go lines 158-160): the
`Configs` map, as an association list. -/
structure AuthConfigs : Type where
  configs : List (String × AuthConfig)
deriving DecidableEq, Repr

/-- Base64 standard alphabet, in value order. -/
def alphabetChars : List Char :=
  "ABCDEFGHIJKLMNOPQRSTUVWXYZabcdefghijklmnopqrstuvwxyz0123456789+/".data

/-- Character of a six-bit value in the standard base64 alphabet. -/
def charOfSixbit (v : Nat) : Char := alphabetChars.getD v '?'

/-- Position of a character in a list, counted from the front. -/
def idxOfChar (c : Char) : List Char → Option Nat
  | [] => none
  | a :: rest => if a = c then some 0 else (idxOfChar c rest).map (· + 1)

/-- Six-bit value of a standard base64 alphabet character. -/
def sixbitOfChar (c : Char) : Option Nat := idxOfChar c alphabetChars

/-- Encoding of a byte list in standard padded base64 (the inverse direction
of `base64.StdEncoding.DecodeString`, used to state round-trip facts). -/
def base64EncodeBytes : List Nat → List Char
  | [] => []
  | [a] => [charOfSixbit (a / 4), charOfSixbit (a % 4 * 16), '=', '=']
  | [a, b] => [charOfSixbit (a / 4), charOfSixbit (a % 4 * 16 + b / 16),
      charOfSixbit (b % 16 * 4), '=']
  | a :: b :: c :: rest =>
      charOfSixbit (a / 4) :: charOfSixbit (a % 4 * 16 + b / 16) ::
      charOfSixbit (b % 16 * 4 + c / 64) :: charOfSixbit (c % 64) ::
      base64EncodeBytes rest

/-- String form of `base64EncodeBytes`. -/
def base64Encode (bs : List Nat) : String := String.mk (base64EncodeBytes bs)

/-- Model of the quad-at-a-time loop of Go `base64.StdEncoding.DecodeString`:
four characters yield three bytes, a final `xx==` quad one byte, a final
`xxx=` quad two bytes; a character outside the alphabet, misplaced padding,
or a length that is not a multiple of four is an error. -/
def base64DecodeQuads : List Char → Except String (List Nat)
  | [] => .ok []
  | c1 :: c2 :: c3 :: c4 :: rest =>
    match sixbitOfChar c1, sixbitOfChar c2 with
    | some v1, some v2 =>
      if c3 = '=' then
        if c4 = '=' ∧ rest = [] then .ok [v1 * 4 + v2 / 16]
        else .error "illegal base64 data"
      else
        match sixbitOfChar c3 with
        | some v3 =>
          if c4 = '=' then
            if rest = [] then .ok [v1 * 4 + v2 / 16, v2 % 16 * 16 + v3 / 4]
            else .error "illegal base64 data"
          else
            match sixbitOfChar c4 with
            | some v4 =>
              match base64DecodeQuads rest with
              | .ok bs => .ok ((v1 * 4 + v2 / 16) :: (v2 % 16 * 16 + v3 / 4) ::
                  (v3 % 4 * 64 + v4) :: bs)
              | .error e => .error e
            | none => .error "illegal base64 data"
        | none => .error "illegal base64 data"
    | _, _ => .error "illegal base64 data"
  | _ => .error "illegal base64 data"

/-- Model of Go `base64.StdEncoding.DecodeString`, which ignores `\r` and
`\n` characters in its input. -/
def base64Decode (s : String) : Except String (List Nat) :=
  base64DecodeQuads (s.data.filter (fun c => !(c == '\r' || c == '\n')))

/-- Byte values of a Go string (Lean chars stand for bytes; only values
`< 256` occur on the paths modelled here). -/
def strBytes (s : String) : List Nat := s.data.map Char.toNat

/-- Go `string(data)` on decoded bytes: each byte becomes one char. -/
def bytesToStr (bs : List Nat) : String := String.mk (bs.map Char.ofNat)

/-- Split of a char list at the first occurrence of `sep`; `none` when `sep`
does not occur. -/
def splitOnFirst (sep : Char) : List Char → Option (List Char × List Char)
  | [] => none
  | c :: cs =>
    if c = sep then some ([], cs)
    else match splitOnFirst sep cs with
      | some (l, r) => some (c :: l, r)
      | none => none

/-- Model of Go `strings.SplitN(s, ":", 2)`. -/
def splitN2Colon (s : String) : List String :=
  match splitOnFirst ':' s.data with
  | none => [s]
  | some (l, r) => [String.mk l, String.mk r]

/-- Decoding of one packed auth value, inlined in `authConfigs`
(src/docker/provider.go lines 272-279): base64-decode, then
`strings.SplitN(string(data), ":", 2)`, requiring exactly two parts. -/
def authDecode (packed : String) : Except GoError (String × String) :=
  match base64Decode packed with
  | .error msg => .error (.base64 msg)
  | .ok data =>
    match splitN2Colon (bytesToStr data) with
    | [u, p] => .ok (u, p)
    | _ => .error .malformedCredential

/-- Parse tree of a JSON document. -/
inductive Json : Type where
  | null
  | bool (b : Bool)
  | num (n : Int)
  | str (s : String)
  | arr (elems : List Json)
  | obj (fields : List (String × Json))

/-- Last binding of a key among the fields of a JSON object: the Go
`encoding/json` package lets a later duplicate key overwrite an earlier one. -/
def lookupLast (name : String) : List (String × Json) → Option Json
  | [] => none
  | (k, v) :: rest =>
    match lookupLast name rest with
    | some r => some r
    | none => if k = name then some v else none

/-- String field of a JSON object the way Go unmarshals a struct string
field: absent or `null` yields the zero value `""`, a non-string value is a
type error (`none`). -/
def getStrField (fields : List (String × Json)) (name : String) : Option String :=
  match lookupLast name fields with
  | none => some ""
  | some (.str s) => some s
  | some .null => some ""
  | some _ => none

/-- Go unmarshalling of one `dockerConfig` struct value: an object (unknown
fields ignored) or `null`; anything else is a type error. -/
def decodeDockerConfig : Json → Option dockerConfig
  | .obj fields =>
    match getStrField fields "auth", getStrField fields "email" with
    | some a, some e => some { auth := a, email := e }
    | _, _ => none
  | .null => some { auth := "", email := "" }
  | _ => none

/-- Fields of a JSON object unmarshalled into `map[string]dockerConfig`,
processed in order with map-overwrite semantics. -/
def decodeConfMapFields (acc : List (String × dockerConfig)) :
    List (String × Json) → Option (List (String × dockerConfig))
  | [] => some acc
  | (k, v) :: rest =>
    match decodeDockerConfig v with
    | none => none
    | some conf => decodeConfMapFields (mapInsert k conf acc) rest

/-- Go unmarshalling of a JSON value into `map[string]dockerConfig`: an
object of `dockerConfig` values, or `null` (leaving the nil map). -/
def decodeConfMap : Json → Option (List (String × dockerConfig))
  | .null => some []
  | .obj fields => decodeConfMapFields [] fields
  | _ => none

/-- Go unmarshalling of the wrapper struct `{ Auths map[string]dockerConfig
json:auths }` (src/docker/provider.go lines 247-249): top level must be an
object (or `null`); a missing `auths` key leaves the nil map. -/
def unmarshalWrapper : Json → Option (List (String × dockerConfig))
  | .null => some []
  | .obj fields =>
    match lookupLast "auths" fields with
    | none => some []
    | some v => decodeConfMap v
  | _ => none

/-- Model of `parseDockerConfig` (src/docker/provider.go lines 242-261):
first unmarshal into the `auths` wrapper and use the inner map when that
succeeds with a non-empty map, else unmarshal the same content as a flat
map, returning the error of that second attempt on failure. -/
def parseDockerConfig (doc : Except String Json) :
    Except GoError (List (String × dockerConfig)) :=
  match doc with
  | .error msg => .error (.jsonSyntax msg)
  | .ok j =>
    match unmarshalWrapper j with
    | some auths =>
      if auths.length > 0 then .ok auths
      else
        match decodeConfMap j with
        | some confs => .ok confs
        | none => .error .jsonType
    | none =>
      match decodeConfMap j with
      | some confs => .ok confs
      | none => .error .jsonType

/-- Loop body of `authConfigs` (src/docker/provider.go lines 268-287) with
the accumulated `c.Configs` map made explicit. -/
def authConfigsAux (confs : List (String × dockerConfig))
    (acc : List (String × AuthConfig)) : Except GoError AuthConfigs :=
  match confs with
  | [] => .ok ⟨acc⟩
  | (reg, conf) :: rest =>
    if conf.auth = "" then authConfigsAux rest acc
    else
      match authDecode conf.auth with
      | .error e => .error e
      | .ok (username, password) =>
        authConfigsAux rest (mapInsert reg
          { email := conf.email, username := username, password := password,
            serverAddress := reg, auth := conf.auth } acc)

/-- Model of `authConfigs` (src/docker/provider.go lines 264-289). -/
def authConfigs (confs : List (String × dockerConfig)) : Except GoError AuthConfigs :=
  authConfigsAux confs []

/-- Model of `newAuthConfigurations` (src/docker/provider.go lines 228-239). -/
def newAuthConfigurations (doc : Except String Json) : Except GoError AuthConfigs :=
  match parseDockerConfig doc with
  | .error e => .error e
  | .ok confs => authConfigs confs

/-- One `registry_auth` block as read from the schema set; the schema
defaults make every field present, with `""` for unset. -/
structure AuthBlock : Type where
  address : String
  username : String
  password : String
  configFile : String
deriving DecidableEq, Repr

/-- Environment of the OS-boundary calls: the result of `user.Current()`
(home directory or error) and the file system as a map from path to content,
where an absent path makes `os.Open` fail and content is JSON-or-syntax-error
as read by `parseDockerConfig`. -/
structure Env : Type where
  homeDir : Except String String
  files : List (String × Except String Json)

/-- Path expansion step of `providerSetToRegistryAuth`
(src/docker/provider.go lines 186-193): a leading `~/` is expanded with
`user.Current().HomeDir`; `strings.Replace(filePath, "~", home, 1)` replaces
the first `~`, which under the `~/` prefix is the first character. -/
def expandPath (env : Env) (filePath : String) : Except GoError String :=
  match filePath.data with
  | '~' :: '/' :: rest =>
    (match env.homeDir with
     | .error e => .error (.homeDirError e)
     | .ok home => .ok (home ++ String.mk ('/' :: rest)))
  | _ => .ok filePath

/-- Loop over the parsed file entries (src/docker/provider.go lines
205-212): every entry whose normalized key equals the target overwrites the
username/password pair and sets the found flag. -/
def scanRegistries (target : String) (entries : List (String × AuthConfig))
    (up : String × String) (found : Bool) : (String × String) × Bool :=
  match entries with
  | [] => (up, found)
  | (registry, cfg) :: rest =>
    if target = normalizeRegistryAddress registry then
      scanRegistries target rest (cfg.username, cfg.password) true
    else
      scanRegistries target rest up found

/-- File-based branch of `providerSetToRegistryAuth` (src/docker/provider.go
lines 185-217): expand the path, open the file, parse it, scan the entries,
and fail with `registryNotFound` when no entry matched. -/
def resolveFromFile (env : Env) (serverAddress : String) (configFile : String) :
    Except GoError AuthConfig :=
  match expandPath env configFile with
  | .error e => .error e
  | .ok filePath =>
    match env.files.lookup filePath with
    | none => .error (.fileOpen filePath)
    | some doc =>
      match newAuthConfigurations doc with
      | .error e => .error e
      | .ok auths =>
        match scanRegistries serverAddress auths.configs ("", "") false with
        | (up, true) =>
          .ok { username := up.1, password := up.2, email := "",
                serverAddress := serverAddress, auth := "" }
        | (_, false) => .error (.registryNotFound serverAddress filePath)

/-- Per-block body of `providerSetToRegistryAuth` (src/docker/provider.go
lines 175-218): the record starts from the zero `types.AuthConfig` with
`ServerAddress` set to the normalized address; inline credentials win when
`username` is non-empty, else the config file is consulted when non-empty,
else the record stays empty. -/
def resolveBlock (env : Env) (b : AuthBlock) : Except GoError AuthConfig :=
  let serverAddress := normalizeRegistryAddress b.address
  if b.username ≠ "" then
    .ok { username := b.username, password := b.password, email := "",
          serverAddress := serverAddress, auth := "" }
  else if b.configFile ≠ "" then
    resolveFromFile env serverAddress b.configFile
  else
    .ok { username := "", password := "", email := "",
          serverAddress := serverAddress, auth := "" }

/-- Loop of `providerSetToRegistryAuth` over the blocks with the accumulated
`authConfigs.Configs` map explicit; each resolved record is written at its
`ServerAddress` key (src/docker/provider.go line 220). -/
def providerSetToRegistryAuthAux (env : Env) (acc : List (String × AuthConfig)) :
    List AuthBlock → Except GoError (List (String × AuthConfig))
  | [] => .ok acc
  | b :: rest =>
    match resolveBlock env b with
    | .error e => .error e
    | .ok cfg => providerSetToRegistryAuthAux env (mapInsert cfg.serverAddress cfg acc) rest

/-- Model of `providerSetToRegistryAuth` (src/docker/provider.go lines
170-224). -/
def providerSetToRegistryAuth (env : Env) (blocks : List AuthBlock) :
    Except GoError AuthConfigs :=
  match providerSetToRegistryAuthAux env [] blocks with
  | .ok m => .ok ⟨m⟩
  | .error e => .error e

/-- Packed auth value decoding to `userA:passA`. -/
def authA : String := base64Encode (strBytes "userA:passA")

/-- Packed auth value decoding to `userB:passB`. -/
def authB : String := base64Encode (strBytes "userB:passB")

/-- Packed auth value decoding to bytes containing no colon. -/
def authNoColon : String := base64Encode (strBytes "nocolon")

/-- Concrete credentials file in the wrapped (`auths`) shape with two
entries whose keys normalize to the same address `"reg"`. -/
def jsonWrapped : Json :=
  .obj [("auths", .obj
    [("reg", .obj [("auth", .str authA), ("email", .str "a@example.com")]),
     ("reg/", .obj [("auth", .str authB)])])]

/-- Concrete credentials file in the legacy flat shape. -/
def jsonFlat : Json :=
  .obj [("reg", .obj [("auth", .str authA)])]

/-- Concrete credentials file holding a well-formed entry for `"reg"` first
and an entry whose auth value decodes to bytes with no colon second. -/
def jsonBadEntry : Json :=
  .obj [("reg", .obj [("auth", .str authA)]),
        ("bad", .obj [("auth", .str authNoColon)])]

/-- Parsed mapping of `jsonBadEntry`. -/
def confsBad : List (String × dockerConfig) :=
  [("reg", { auth := authA, email := "" }),
   ("bad", { auth := authNoColon, email := "" })]

/-- Concrete parsed credentials mapping with one normal entry and one entry
whose `auth` field is empty. -/
def confsW7 : List (String × dockerConfig) :=
  [("reg", { auth := authA, email := "a@example.com" }),
   ("empty", { auth := "", email := "x@y" })]

/-- Result of `authConfigs` on `confsW7`. -/
def mW7 : AuthConfigs :=
  ⟨[("reg", { email := "a@example.com", username := "userA", password := "passA",
              serverAddress := "reg", auth := authA })]⟩

/-- Concrete environment for the witnesses. -/
def envW : Env :=
  { homeDir := .ok "/home/u",
    files := [("/cfg", .ok jsonWrapped), ("/flat", .ok jsonFlat),
              ("/bad", .ok jsonBadEntry),
              ("/syn", .error "unexpected end of JSON input")] }

/-- Concrete file-based auth block requesting `"reg"`. -/
def blockFileReg : AuthBlock :=
  { address := "reg", username := "", password := "", configFile := "/cfg" }

/-- Concrete file-based auth block requesting an address absent from the
file. -/
def blockFileMissing : AuthBlock :=
  { address := "other", username := "", password := "", configFile := "/cfg" }

/-- Concrete file-based auth block whose config file path does not exist. -/
def blockNoFile : AuthBlock :=
  { address := "r2", username := "", password := "", configFile := "/absent" }

/-- Concrete inline-credential auth block; its `configFile` is also set and
its password empty, to exercise the precedence rule. -/
def blockInline : AuthBlock :=
  { address := "reg/", username := "u", password := "", configFile := "/cfg" }

/-- Concrete block with neither username nor config file. -/
def blockEmpty : AuthBlock :=
  { address := "anon.example.com/", username := "", password := "", configFile := "" }

/-- Concrete colliding inline blocks: both addresses normalize to `"reg"`. -/
def blockDupA : AuthBlock :=
  { address := "reg/", username := "a", password := "pa", configFile := "" }

/-- Concrete second colliding inline block. -/
def blockDupB : AuthBlock :=
  { address := "reg", username := "b", password := "pb", configFile := "" }

/-- Concrete file-based block reading the file with the malformed entry. -/
def blockFileBad : AuthBlock :=
  { address := "reg", username := "", password := "", configFile := "/bad" }

/-- Result of `newAuthConfigurations` on `jsonWrapped`: both entries
decoded, keyed by their original address strings. -/
def mWrapped : AuthConfigs :=
  ⟨[("reg", { email := "a@example.com", username := "userA", password := "passA",
              serverAddress := "reg", auth := authA }),
    ("reg/", { email := "", username := "userB", password := "passB",
               serverAddress := "reg/", auth := authB })]⟩

deriving instance DecidableEq for Except

theorem lookup_mapInsert_self {α : Type} (k : String) (v : α) (m : List (String × α)) :
    (mapInsert k v m).lookup k = some v := by
  induction m with
  | nil => simp [mapInsert, List.lookup]
  | cons p t ih =>
    obtain ⟨k2, v2⟩ := p
    by_cases hk : k2 = k
    · subst hk; simp [mapInsert, List.lookup]
    · have hbeq : (k == k2) = false := beq_eq_false_iff_ne.mpr (Ne.symm hk)
      simp [mapInsert, hk, List.lookup, hbeq, ih]

theorem lookup_mapInsert_ne {α : Type} {k k2 : String} (v : α) (m : List (String × α))
    (h : k2 ≠ k) : (mapInsert k v m).lookup k2 = m.lookup k2 := by
  have hb : (k2 == k) = false := by simpa using h
  induction m with
  | nil => simp [mapInsert, List.lookup, hb]
  | cons p t ih =>
    obtain ⟨k3, v3⟩ := p
    by_cases hk : k3 = k
    · subst hk
      simp [mapInsert, List.lookup, hb]
    · by_cases hk2 : k2 = k3
      · subst hk2
        simp [mapInsert, hk, List.lookup]
      · have hb2 : (k2 == k3) = false := by simpa using hk2
        simp [mapInsert, hk, List.lookup, hb2, ih]

/-- Claim C8: the first half of the claim holds of the spec-modelled
normalizer (a string with no trailing slash is unchanged, and appending one
slash to such a string is undone), but the claimed equation
`normalize (s ++ "/") = normalize s` for every `s` fails, because the
normalization strips exactly one trailing slash (see the counterexample);
hence the amended statement restricts the equation to strings that do not
already end in a slash. -/
theorem claim_C8 (s : String) (h : s.data.getLast? ≠ some '/') :
    normalizeRegistryAddress s = s ∧ normalizeRegistryAddress (s ++ "/") = s := by
  obtain ⟨d⟩ := s
  constructor
  · unfold normalizeRegistryAddress
    match hl : (String.mk d).data.getLast? with
    | none => rfl
    | some c =>
      have hc : c ≠ '/' := by rintro rfl; exact h hl
      simp [hc]
  · unfold normalizeRegistryAddress
    have hd : (String.mk d ++ "/").data = d ++ ['/'] := by
      rw [String.data_append]
    rw [hd]
    simp [List.getLast?_concat, List.dropLast_concat]

/-- Claim C8 witness: instantiation at a concrete address with no trailing
slash. -/
theorem claim_C8_wit :
    normalizeRegistryAddress "reg.example.com" = "reg.example.com" ∧
    normalizeRegistryAddress ("reg.example.com" ++ "/") = "reg.example.com" :=
  claim_C8 "reg.example.com" (by decide)

/-- Claim C8 counterexample: with `s = "a/"`, appending a slash and
normalizing strips only the appended slash, while normalizing `s` itself
strips its slash, so the claimed equation fails. -/
theorem claim_C8_cex :
    normalizeRegistryAddress ("a/" ++ "/") ≠ normalizeRegistryAddress "a/" := by decide

/-- Claim C2: resolution mode precedence per block. When `username` is
non-empty the resolved record is built from the block alone (and is
independent of the environment, i.e. no file access), regardless of
`configFile` and even with an empty password; else when `configFile` is
non-empty the credentials file is consulted (`resolveFromFile`); else an
empty-credential record with the normalized address is produced. -/
theorem claim_C2 (env env2 : Env) (b : AuthBlock) :
    (b.username ≠ "" →
       resolveBlock env b =
         .ok { username := b.username, password := b.password, email := "",
               serverAddress := normalizeRegistryAddress b.address, auth := "" } ∧
       resolveBlock env b = resolveBlock env2 b) ∧
    (b.username = "" → b.configFile ≠ "" →
       resolveBlock env b = resolveFromFile env (normalizeRegistryAddress b.address) b.configFile) ∧
    (b.username = "" → b.configFile = "" →
       resolveBlock env b =
         .ok { username := "", password := "", email := "",
               serverAddress := normalizeRegistryAddress b.address, auth := "" }) := by
  refine ⟨fun h => ⟨?_, ?_⟩, fun h1 h2 => ?_, fun h1 h2 => ?_⟩ <;>
    simp_all [resolveBlock]

/-- Claim C2 witness: the precedence rule at concrete blocks; `blockInline`
has both `username` and `configFile` set and an empty password, and its
resolution never touches the file system. -/
theorem claim_C2_wit :
    (resolveBlock envW blockInline =
       .ok { username := "u", password := "", email := "",
             serverAddress := "reg", auth := "" } ∧
     resolveBlock envW blockInline =
       resolveBlock { homeDir := .error "no user", files := [] } blockInline) ∧
    resolveBlock envW blockFileReg = resolveFromFile envW "reg" "/cfg" ∧
    resolveBlock envW blockEmpty =
      .ok { username := "", password := "", email := "",
            serverAddress := "anon.example.com", auth := "" } :=
  ⟨(claim_C2 envW { homeDir := .error "no user", files := [] } blockInline).1 (by decide),
   (claim_C2 envW envW blockFileReg).2.1 (by decide) (by decide),
   (claim_C2 envW envW blockEmpty).2.2 (by decide) (by decide)⟩

/-- Claim C3: `parseDockerConfig` on syntactically invalid content fails with
`jsonSyntax` carrying the parser message; on valid JSON it uses the wrapped
`auths` mapping exactly when that unmarshalling succeeds with a non-empty
mapping, and otherwise falls back to unmarshalling the same content as a
flat mapping, failing when that fails. -/
theorem claim_C3 :
    (∀ msg, parseDockerConfig (.error msg) = .error (.jsonSyntax msg)) ∧
    (∀ j auths, unmarshalWrapper j = some auths → auths ≠ [] →
       parseDockerConfig (.ok j) = .ok auths) ∧
    (∀ j, unmarshalWrapper j = none ∨ unmarshalWrapper j = some [] →
       parseDockerConfig (.ok j) =
         match decodeConfMap j with
         | some confs => .ok confs
         | none => .error .jsonType) := by
  refine ⟨fun msg => rfl, fun j auths h hne => ?_, fun j h => ?_⟩
  · simp only [parseDockerConfig, h]
    rw [if_pos (List.length_pos.mpr hne)]
  · rcases h with h | h <;> simp [parseDockerConfig, h]

/-- Claim C3 witness: the wrapped shape is used when non-empty, the flat
shape parses via the fallback, and invalid content surfaces the syntax
error. -/
theorem claim_C3_wit :
    parseDockerConfig (.error "unexpected end of JSON input") =
      .error (.jsonSyntax "unexpected end of JSON input") ∧
    parseDockerConfig (.ok jsonWrapped) =
      .ok [("reg", { auth := authA, email := "a@example.com" }),
           ("reg/", { auth := authB, email := "" })] ∧
    parseDockerConfig (.ok jsonFlat) =
      match decodeConfMap jsonFlat with
      | some confs => .ok confs
      | none => .error .jsonType :=
  ⟨claim_C3.1 "unexpected end of JSON input",
   claim_C3.2.1 jsonWrapped _ (by decide) (by decide),
   claim_C3.2.2 jsonFlat (Or.inr (by decide))⟩

theorem keysNodup_unique {α : Type} {l : List (String × α)}
    (hnd : (l.map Prod.fst).Nodup) {k : String} {a b : α}
    (ha : (k, a) ∈ l) (hb : (k, b) ∈ l) : a = b := by
  induction l with
  | nil => cases ha
  | cons p rest ih =>
    have hnd2 : (rest.map Prod.fst).Nodup := (List.nodup_cons.mp hnd).2
    have hhead : p.1 ∉ rest.map Prod.fst := (List.nodup_cons.mp hnd).1
    rcases List.mem_cons.mp ha with rfl | ha2
    · rcases List.mem_cons.mp hb with heq | hb2
      · exact (Prod.mk.injEq _ _ _ _ ▸ heq.symm).2
      · exact absurd (List.mem_map_of_mem Prod.fst hb2) hhead
    · rcases List.mem_cons.mp hb with rfl | hb2
      · exact absurd (List.mem_map_of_mem Prod.fst ha2) hhead
      · exact ih hnd2 ha2 hb2

theorem authConfigsAux_frame (confs : List (String × dockerConfig))
    (acc m : List (String × AuthConfig)) (reg : String)
    (hok : authConfigsAux confs acc = .ok ⟨m⟩)
    (hno : ∀ p ∈ confs, p.1 = reg → p.2.auth = "") :
    m.lookup reg = acc.lookup reg := by
  induction confs generalizing acc with
  | nil =>
    simp only [authConfigsAux, Except.ok.injEq, AuthConfigs.mk.injEq] at hok
    rw [hok]
  | cons q rest ih =>
    obtain ⟨k, c⟩ := q
    by_cases ha : c.auth = ""
    · simp only [authConfigsAux, if_pos ha] at hok
      exact ih _ hok (fun p hp => hno p (List.mem_cons_of_mem _ hp))
    · simp only [authConfigsAux, if_neg ha] at hok
      cases hd : authDecode c.auth with
      | error e => rw [hd] at hok; cases hok
      | ok up =>
        obtain ⟨u, pw⟩ := up
        rw [hd] at hok
        have hkreg : k ≠ reg := fun h => ha (hno (k, c) (List.mem_cons_self _ _) h)
        rw [ih _ hok (fun p hp => hno p (List.mem_cons_of_mem _ hp))]
        exact lookup_mapInsert_ne _ _ (Ne.symm hkreg)

theorem authConfigsAux_mem_ok (confs : List (String × dockerConfig))
    (acc m : List (String × AuthConfig)) (reg : String) (conf : dockerConfig)
    (hnd : (confs.map Prod.fst).Nodup) (hmem : (reg, conf) ∈ confs)
    (hna : conf.auth ≠ "") (hok : authConfigsAux confs acc = .ok ⟨m⟩) :
    ∃ u p, authDecode conf.auth = .ok (u, p) ∧
      m.lookup reg = some { email := conf.email, username := u, password := p,
                            serverAddress := reg, auth := conf.auth } := by
  induction confs generalizing acc with
  | nil => cases hmem
  | cons q rest ih =>
    obtain ⟨k, c⟩ := q
    have hnd2 : (rest.map Prod.fst).Nodup := (List.nodup_cons.mp hnd).2
    have hhead : k ∉ rest.map Prod.fst := (List.nodup_cons.mp hnd).1
    rcases List.mem_cons.mp hmem with heq | htail
    · obtain ⟨hk, hc⟩ := Prod.mk.injEq .. ▸ heq
      subst hk; subst hc
      simp only [authConfigsAux, if_neg hna] at hok
      cases hd : authDecode conf.auth with
      | error e => rw [hd] at hok; cases hok
      | ok up =>
        obtain ⟨u, pw⟩ := up
        rw [hd] at hok
        refine ⟨u, pw, rfl, ?_⟩
        have hfr := authConfigsAux_frame rest _ m reg hok
          (fun p hp hp1 => absurd (hp1 ▸ List.mem_map_of_mem Prod.fst hp) hhead)
        rw [hfr, lookup_mapInsert_self]
    · by_cases ha : c.auth = ""
      · simp only [authConfigsAux, if_pos ha] at hok
        exact ih _ hnd2 htail hok
      · simp only [authConfigsAux, if_neg ha] at hok
        cases hd : authDecode c.auth with
        | error e => rw [hd] at hok; cases hok
        | ok up =>
          obtain ⟨u2, p2⟩ := up
          rw [hd] at hok
          exact ih _ hnd2 htail hok

/-- Claim C7: under key-uniqueness (guaranteed for Go maps), an entry of the
parsed mapping with an empty `auth` field is absent from the result of
`authConfigs` and raises no error, while an entry with non-empty `auth` is
decoded and included keyed by (and with `serverAddress` equal to) its
original, unnormalized address string. -/
theorem claim_C7 (confs : List (String × dockerConfig)) (m : AuthConfigs)
    (reg : String) (conf : dockerConfig)
    (hnd : (confs.map Prod.fst).Nodup) (hmem : (reg, conf) ∈ confs)
    (hok : authConfigs confs = .ok m) :
    (conf.auth = "" → m.configs.lookup reg = none) ∧
    (conf.auth ≠ "" → ∃ u p, authDecode conf.auth = .ok (u, p) ∧
       m.configs.lookup reg = some { email := conf.email, username := u, password := p,
                                     serverAddress := reg, auth := conf.auth }) := by
  obtain ⟨mc⟩ := m
  constructor
  · intro ha
    have hfr := authConfigsAux_frame confs [] mc reg hok
      (fun p hp hp1 => by
        have : p.2 = conf := keysNodup_unique hnd (hp1 ▸ (by simpa using hp)) hmem
        rw [this]; exact ha)
    simpa [List.lookup] using hfr
  · intro hna
    exact authConfigsAux_mem_ok confs [] mc reg conf hnd hmem hna hok

/-- Claim C7 witness: on a concrete mapping, the empty-auth entry is dropped
and the normal entry is decoded and present under its original key. -/
theorem claim_C7_wit :
    mW7.configs.lookup "empty" = none ∧
    (∃ u p, authDecode authA = .ok (u, p) ∧
       mW7.configs.lookup "reg" = some { email := "a@example.com", username := u,
                                         password := p, serverAddress := "reg",
                                         auth := authA }) :=
  ⟨(claim_C7 confsW7 mW7 "empty" { auth := "", email := "x@y" }
      (by decide) (by decide) (by decide)).1 rfl,
   (claim_C7 confsW7 mW7 "reg" { auth := authA, email := "a@example.com" }
      (by decide) (by decide) (by decide)).2 (by decide)⟩

theorem authDecode_err_shape (s : String) (e : GoError)
    (h : authDecode s = .error e) :
    (∃ msg, e = .base64 msg) ∨ e = .malformedCredential := by
  unfold authDecode at h
  cases hb : base64Decode s with
  | error msg =>
    rw [hb] at h
    injection h with h2
    exact Or.inl ⟨msg, h2.symm⟩
  | ok data =>
    rw [hb] at h
    dsimp only at h
    generalize splitN2Colon (bytesToStr data) = l at h
    match l with
    | [] => injection h with h2; exact Or.inr h2.symm
    | [u] => injection h with h2; exact Or.inr h2.symm
    | [u, p] => cases h
    | u :: p :: q :: t => injection h with h2; exact Or.inr h2.symm

theorem authConfigsAux_bad_err (confs : List (String × dockerConfig))
    (acc : List (String × AuthConfig)) (reg : String) (conf : dockerConfig)
    (e : GoError) (hmem : (reg, conf) ∈ confs) (hna : conf.auth ≠ "")
    (hd : authDecode conf.auth = .error e) :
    ∃ e2, authConfigsAux confs acc = .error e2 ∧
      ((∃ msg, e2 = .base64 msg) ∨ e2 = .malformedCredential) := by
  induction confs generalizing acc with
  | nil => cases hmem
  | cons q rest ih =>
    obtain ⟨k, c⟩ := q
    by_cases ha : c.auth = ""
    · have htail : (reg, conf) ∈ rest := by
        rcases List.mem_cons.mp hmem with heq | h2
        · exact absurd (congrArg (fun p => p.2.auth) heq) (by simpa [ha] using hna)
        · exact h2
      simpa [authConfigsAux, ha] using ih _ htail
    · cases hd2 : authDecode c.auth with
      | error e3 =>
        exact ⟨e3, by simp [authConfigsAux, ha, hd2], authDecode_err_shape _ _ hd2⟩
      | ok up =>
        obtain ⟨u, p⟩ := up
        have htail : (reg, conf) ∈ rest := by
          rcases List.mem_cons.mp hmem with heq | h2
          · exfalso
            have hc : c = conf := (Prod.mk.injEq .. ▸ heq.symm).2
            rw [hc] at hd2
            rw [hd2] at hd
            cases hd
          · exact h2
        simpa [authConfigsAux, ha, hd2] using ih _ htail

/-- Claim C10: when the parsed mapping of the consulted file contains any
entry whose non-empty auth value fails to decode (invalid base64 or no
colon), resolving a file-based block against that file fails with a
decode or malformed-credential error, regardless of a well-formed matching
entry elsewhere in the file: `authConfigs` decodes every entry before the
resolver performs any lookup. -/
theorem claim_C10 (env : Env) (b : AuthBlock) (filePath : String)
    (doc : Except String Json) (confs : List (String × dockerConfig))
    (reg : String) (conf : dockerConfig) (e : GoError)
    (h1 : b.username = "") (h2 : b.configFile ≠ "")
    (hexp : expandPath env b.configFile = .ok filePath)
    (hfile : env.files.lookup filePath = some doc)
    (hparse : parseDockerConfig doc = .ok confs)
    (hmem : (reg, conf) ∈ confs) (hna : conf.auth ≠ "")
    (hd : authDecode conf.auth = .error e) :
    ∃ e2, ((∃ msg, e2 = .base64 msg) ∨ e2 = .malformedCredential) ∧
      authConfigs confs = .error e2 ∧ resolveBlock env b = .error e2 := by
  obtain ⟨e2, hauth, hshape⟩ := authConfigsAux_bad_err confs [] reg conf e hmem hna hd
  refine ⟨e2, hshape, hauth, ?_⟩
  simp only [resolveBlock, h1, h2, ne_eq, not_true_eq_false, if_false,
    not_false_eq_true, if_true, ite_not]
  simp only [resolveFromFile, hexp, hfile, newAuthConfigurations, hparse]
  rw [show authConfigs confs = .error e2 from hauth]

/-- Claim C10 witness: the concrete file `jsonBadEntry` has a well-formed
entry for the requested address `"reg"` first and a malformed entry second;
resolution still fails with the malformed-credential error. -/
theorem claim_C10_wit :
    ∃ e2, ((∃ msg, e2 = .base64 msg) ∨ e2 = .malformedCredential) ∧
      authConfigs confsBad = .error e2 ∧ resolveBlock envW blockFileBad = .error e2 :=
  claim_C10 envW blockFileBad "/bad" (.ok jsonBadEntry) confsBad "bad"
    { auth := authNoColon, email := "" } .malformedCredential
    (by decide) (by decide) (by decide) rfl (by decide) (by decide)
    (by decide) (by decide)

theorem scanRegistries_spec (target : String) (entries : List (String × AuthConfig))
    (up : String × String) (found : Bool) :
    scanRegistries target entries up found =
      match (entries.filter
          (fun rc => decide (target = normalizeRegistryAddress rc.1))).getLast? with
      | some rc => ((rc.2.username, rc.2.password), true)
      | none => (up, found) := by
  induction entries generalizing up found with
  | nil => rfl
  | cons q rest ih =>
    obtain ⟨registry, cfg⟩ := q
    by_cases h : target = normalizeRegistryAddress registry
    · simp only [scanRegistries, if_pos h, List.filter_cons]
      rw [if_pos (decide_eq_true h), ih]
      cases hfr : rest.filter
          (fun rc => decide (target = normalizeRegistryAddress rc.1)) with
      | nil => rfl
      | cons a t =>
        rw [List.getLast?_cons_cons]
        cases hg : (a :: t).getLast? with
        | none => exact absurd (List.getLast?_eq_none_iff.mp hg) (by simp)
        | some x => rfl
    · simp only [scanRegistries, if_neg h, List.filter_cons]
      rw [if_neg (by simp [h])]
      exact ih up found

/-- Claim C1 (amended): for a file-based block whose path expands, whose
file opens and parses, the resolver scans every entry of the parsed
credentials file, normalizing each key; when no entry matches, it fails
with `registryNotFound` carrying the normalized requested address and the
file path; when entries match, it takes the username and password of the
last matching entry in iteration order (each match overwrites the previous
one), not the first. -/
theorem claim_C1 (env : Env) (b : AuthBlock) (filePath : String)
    (doc : Except String Json) (auths : AuthConfigs)
    (h1 : b.username = "") (h2 : b.configFile ≠ "")
    (hexp : expandPath env b.configFile = .ok filePath)
    (hfile : env.files.lookup filePath = some doc)
    (hauths : newAuthConfigurations doc = .ok auths) :
    ((auths.configs.filter (fun rc =>
        decide (normalizeRegistryAddress b.address = normalizeRegistryAddress rc.1))).getLast? =
          none →
       resolveBlock env b =
         .error (.registryNotFound (normalizeRegistryAddress b.address) filePath)) ∧
    (∀ rc, (auths.configs.filter (fun rc2 =>
        decide (normalizeRegistryAddress b.address = normalizeRegistryAddress rc2.1))).getLast? =
          some rc →
       resolveBlock env b =
         .ok { username := rc.2.username, password := rc.2.password, email := "",
               serverAddress := normalizeRegistryAddress b.address, auth := "" }) := by
  have hres : resolveBlock env b =
      resolveFromFile env (normalizeRegistryAddress b.address) b.configFile := by
    simp [resolveBlock, h1, h2]
  constructor
  · intro hn
    rw [hres]
    simp only [resolveFromFile, hexp, hfile, hauths]
    rw [scanRegistries_spec, hn]
  · intro rc hs
    rw [hres]
    simp only [resolveFromFile, hexp, hfile, hauths]
    rw [scanRegistries_spec, hs]

/-- Claim C1 counterexample: in `jsonWrapped` both entries normalize to the
requested address `"reg"`; the first matching entry of the parsed file
carries username `userA`, but resolution returns the later entry's
credentials (`userB`), refuting that the first matching entry is selected. -/
theorem claim_C1_cex :
    newAuthConfigurations (.ok jsonWrapped) = .ok mWrapped ∧
    (mWrapped.configs.filter (fun rc =>
        decide (normalizeRegistryAddress blockFileReg.address =
          normalizeRegistryAddress rc.1))).head? =
      some ("reg", { email := "a@example.com", username := "userA", password := "passA",
                     serverAddress := "reg", auth := authA }) ∧
    resolveBlock envW blockFileReg ≠
      .ok { username := "userA", password := "passA", email := "",
            serverAddress := "reg", auth := "" } ∧
    resolveBlock envW blockFileReg =
      .ok { username := "userB", password := "passB", email := "",
            serverAddress := "reg", auth := "" } :=
  ⟨by decide, by decide, by decide, by decide⟩

/-- Claim C1 witness: the not-found branch at a concrete missing address
(the error carries the normalized address and the path), and the matching
branch at a concrete present address. -/
theorem claim_C1_wit :
    resolveBlock envW blockFileMissing = .error (.registryNotFound "other" "/cfg") ∧
    resolveBlock envW blockFileReg =
      .ok { username := "userB", password := "passB", email := "",
            serverAddress := "reg", auth := "" } :=
  ⟨(claim_C1 envW blockFileMissing "/cfg" (.ok jsonWrapped) mWrapped
      (by decide) (by decide) (by decide) rfl (by decide)).1 (by decide),
   (claim_C1 envW blockFileReg "/cfg" (.ok jsonWrapped) mWrapped
      (by decide) (by decide) (by decide) rfl (by decide)).2
     ("reg/", { email := "", username := "userB", password := "passB",
                serverAddress := "reg/", auth := authB }) (by decide)⟩

/-- Claim C9: every successful file-based resolution produces a record whose
`email` and `auth` (raw packed auth) fields are empty and whose
`serverAddress` is the block's own normalized address, while its username
and password are copied from a file entry whose normalized key equals that
address — regardless of the email, auth and key values of that entry. -/
theorem claim_C9 (env : Env) (b : AuthBlock) (cfg : AuthConfig)
    (h1 : b.username = "") (h2 : b.configFile ≠ "")
    (hok : resolveBlock env b = .ok cfg) :
    cfg.email = "" ∧ cfg.auth = "" ∧
    cfg.serverAddress = normalizeRegistryAddress b.address ∧
    ∃ filePath doc auths reg fc,
      expandPath env b.configFile = .ok filePath ∧
      env.files.lookup filePath = some doc ∧
      newAuthConfigurations doc = .ok auths ∧
      (reg, fc) ∈ auths.configs ∧
      normalizeRegistryAddress reg = normalizeRegistryAddress b.address ∧
      cfg.username = fc.username ∧ cfg.password = fc.password := by
  rw [show resolveBlock env b =
      resolveFromFile env (normalizeRegistryAddress b.address) b.configFile from by
    simp [resolveBlock, h1, h2]] at hok
  unfold resolveFromFile at hok
  cases hexp : expandPath env b.configFile with
  | error e => rw [hexp] at hok; cases hok
  | ok filePath =>
    rw [hexp] at hok
    dsimp only at hok
    cases hfile : env.files.lookup filePath with
    | none => rw [hfile] at hok; cases hok
    | some doc =>
      rw [hfile] at hok
      dsimp only at hok
      cases hauths : newAuthConfigurations doc with
      | error e => rw [hauths] at hok; cases hok
      | ok auths =>
        rw [hauths] at hok
        dsimp only at hok
        rw [scanRegistries_spec] at hok
        cases hlast : (auths.configs.filter (fun rc =>
            decide (normalizeRegistryAddress b.address =
              normalizeRegistryAddress rc.1))).getLast? with
        | none => rw [hlast] at hok; cases hok
        | some rc =>
          rw [hlast] at hok
          dsimp only at hok
          injection hok with hok2
          have hmem : rc ∈ auths.configs.filter (fun rc =>
              decide (normalizeRegistryAddress b.address =
                normalizeRegistryAddress rc.1)) := by
            obtain ⟨hne, heq⟩ := List.mem_getLast?_eq_getLast (Option.mem_def.mpr hlast)
            exact heq ▸ List.getLast_mem hne
          obtain ⟨hmem2, hpred⟩ := List.mem_filter.mp hmem
          have hpred2 : normalizeRegistryAddress b.address =
              normalizeRegistryAddress rc.1 := of_decide_eq_true hpred
          subst hok2
          exact ⟨rfl, rfl, rfl, filePath, doc, auths, rc.1, rc.2,
            rfl, hfile, hauths, hmem2, hpred2.symm, rfl, rfl⟩

/-- Claim C9 witness: the concrete file entry for `"reg/"` carries an email,
a raw auth value and its own key, yet the resolved record for the block
requesting `"reg"` keeps only username and password. -/
theorem claim_C9_wit :
    resolveBlock envW blockFileReg =
      Except.ok (AuthConfig.mk "userB" "passB" "" "reg" "") ∧
    (AuthConfig.mk "userB" "passB" "" "reg" "").email = "" ∧
    (AuthConfig.mk "userB" "passB" "" "reg" "").auth = "" ∧
    (AuthConfig.mk "userB" "passB" "" "reg" "").serverAddress =
      normalizeRegistryAddress blockFileReg.address :=
  ⟨by decide,
   (claim_C9 envW blockFileReg (AuthConfig.mk "userB" "passB" "" "reg" "")
      (by decide) (by decide) (by decide)).1,
   (claim_C9 envW blockFileReg (AuthConfig.mk "userB" "passB" "" "reg" "")
      (by decide) (by decide) (by decide)).2.1,
   (claim_C9 envW blockFileReg (AuthConfig.mk "userB" "passB" "" "reg" "")
      (by decide) (by decide) (by decide)).2.2.1⟩

theorem resolveFromFile_serverAddress (env : Env) (sa cf : String) (cfg : AuthConfig)
    (h : resolveFromFile env sa cf = .ok cfg) : cfg.serverAddress = sa := by
  unfold resolveFromFile at h
  cases hexp : expandPath env cf with
  | error e => rw [hexp] at h; cases h
  | ok filePath =>
    rw [hexp] at h
    dsimp only at h
    cases hfile : env.files.lookup filePath with
    | none => rw [hfile] at h; cases h
    | some doc =>
      rw [hfile] at h
      dsimp only at h
      cases hauths : newAuthConfigurations doc with
      | error e => rw [hauths] at h; cases h
      | ok auths =>
        rw [hauths] at h
        dsimp only at h
        rcases hscan : scanRegistries sa auths.configs ("", "") false with ⟨up, found⟩
        rw [hscan] at h
        cases found with
        | false => cases h
        | true =>
          injection h with h2
          rw [← h2]

theorem resolveBlock_serverAddress (env : Env) (b : AuthBlock) (cfg : AuthConfig)
    (h : resolveBlock env b = .ok cfg) :
    cfg.serverAddress = normalizeRegistryAddress b.address := by
  by_cases h1 : b.username = ""
  · by_cases h2 : b.configFile = ""
    · rw [show resolveBlock env b =
          .ok (AuthConfig.mk "" "" "" (normalizeRegistryAddress b.address) "") from by
        simp [resolveBlock, h1, h2]] at h
      injection h with h3
      rw [← h3]
    · rw [show resolveBlock env b =
          resolveFromFile env (normalizeRegistryAddress b.address) b.configFile from by
        simp [resolveBlock, h1, h2]] at h
      exact resolveFromFile_serverAddress _ _ _ _ h
  · rw [show resolveBlock env b =
        .ok (AuthConfig.mk b.username b.password "" (normalizeRegistryAddress b.address) "")
        from by simp [resolveBlock, h1]] at h
    injection h with h3
    rw [← h3]

theorem providerAux_append (env : Env) (xs ys : List AuthBlock)
    (acc : List (String × AuthConfig)) :
    providerSetToRegistryAuthAux env acc (xs ++ ys) =
      match providerSetToRegistryAuthAux env acc xs with
      | .ok acc2 => providerSetToRegistryAuthAux env acc2 ys
      | .error e => .error e := by
  induction xs generalizing acc with
  | nil => rfl
  | cons b rest ih =>
    simp only [List.cons_append, providerSetToRegistryAuthAux]
    cases hrb : resolveBlock env b with
    | error e => rfl
    | ok cfg => exact ih _

theorem providerAux_keys_mono (env : Env) (blocks : List AuthBlock)
    (acc m : List (String × AuthConfig)) (k : String)
    (hk : (acc.lookup k).isSome)
    (hok : providerSetToRegistryAuthAux env acc blocks = .ok m) :
    (m.lookup k).isSome := by
  induction blocks generalizing acc with
  | nil =>
    simp only [providerSetToRegistryAuthAux] at hok
    injection hok with h
    rw [← h]
    exact hk
  | cons b rest ih =>
    simp only [providerSetToRegistryAuthAux] at hok
    cases hrb : resolveBlock env b with
    | error e => rw [hrb] at hok; cases hok
    | ok cfg =>
      rw [hrb] at hok
      refine ih _ ?_ hok
      by_cases hkk : k = cfg.serverAddress
      · rw [hkk, lookup_mapInsert_self]; rfl
      · rw [lookup_mapInsert_ne _ _ hkk]; exact hk

theorem providerAux_ok_covers (env : Env) (blocks : List AuthBlock)
    (acc m : List (String × AuthConfig))
    (hok : providerSetToRegistryAuthAux env acc blocks = .ok m) :
    ∀ b ∈ blocks, (m.lookup (normalizeRegistryAddress b.address)).isSome := by
  induction blocks generalizing acc with
  | nil => intro b hb; cases hb
  | cons q rest ih =>
    simp only [providerSetToRegistryAuthAux] at hok
    cases hrb : resolveBlock env q with
    | error e => rw [hrb] at hok; cases hok
    | ok cfg =>
      rw [hrb] at hok
      intro b hb
      rcases List.mem_cons.mp hb with rfl | hb2
      · have hsa := resolveBlock_serverAddress env b cfg hrb
        refine providerAux_keys_mono env rest _ m _ ?_ hok
        rw [← hsa, lookup_mapInsert_self]
        rfl
      · exact ih _ hok b hb2

theorem providerAux_first_error (env : Env) (blocks : List AuthBlock)
    (acc : List (String × AuthConfig)) :
    (∃ m, providerSetToRegistryAuthAux env acc blocks = .ok m) ∨
    (∃ xs b ys e, blocks = xs ++ b :: ys ∧
       (∀ x ∈ xs, ∃ c, resolveBlock env x = .ok c) ∧
       resolveBlock env b = .error e ∧
       providerSetToRegistryAuthAux env acc blocks = .error e) := by
  induction blocks generalizing acc with
  | nil => exact Or.inl ⟨acc, rfl⟩
  | cons q rest ih =>
    cases hrb : resolveBlock env q with
    | error e =>
      refine Or.inr ⟨[], q, rest, e, rfl, ?_, hrb, ?_⟩
      · intro x hx; cases hx
      · simp [providerSetToRegistryAuthAux, hrb]
    | ok cfg =>
      rcases ih (mapInsert cfg.serverAddress cfg acc) with ⟨m, hm⟩ |
        ⟨xs, b, ys, e, heq, hxs, hb, herr⟩
      · exact Or.inl ⟨m, by simp [providerSetToRegistryAuthAux, hrb, hm]⟩
      · refine Or.inr ⟨q :: xs, b, ys, e, by rw [heq]; rfl, ?_, hb, ?_⟩
        · intro x hx
          rcases List.mem_cons.mp hx with rfl | hx2
          · exact ⟨cfg, hrb⟩
          · exact hxs x hx2
        · simp [providerSetToRegistryAuthAux, hrb, herr]

/-- Claim C5: resolution of a block sequence is all-or-nothing: either it
returns a complete mapping with an entry for every block's normalized
address, or some block fails, every block before it resolved, and the whole
resolution returns exactly that first error, aborting the remaining
blocks. -/
theorem claim_C5 (env : Env) (blocks : List AuthBlock) :
    (∃ m, providerSetToRegistryAuth env blocks = .ok m ∧
       ∀ b ∈ blocks, (m.configs.lookup (normalizeRegistryAddress b.address)).isSome) ∨
    (∃ xs b ys e, blocks = xs ++ b :: ys ∧
       (∀ x ∈ xs, ∃ c, resolveBlock env x = .ok c) ∧
       resolveBlock env b = .error e ∧
       providerSetToRegistryAuth env blocks = .error e) := by
  rcases providerAux_first_error env blocks [] with ⟨m, hm⟩ |
    ⟨xs, b, ys, e, heq, hxs, hb, herr⟩
  · exact Or.inl ⟨⟨m⟩, by simp [providerSetToRegistryAuth, hm],
      providerAux_ok_covers env blocks [] m hm⟩
  · exact Or.inr ⟨xs, b, ys, e, heq, hxs, hb,
      by simp [providerSetToRegistryAuth, herr]⟩

/-- Claim C5 witness: instantiation at a concrete environment and block
sequence whose middle block names a nonexistent config file. -/
theorem claim_C5_wit :
    (∃ m, providerSetToRegistryAuth envW [blockInline, blockNoFile, blockEmpty] = .ok m ∧
       ∀ b ∈ [blockInline, blockNoFile, blockEmpty],
         (m.configs.lookup (normalizeRegistryAddress b.address)).isSome) ∨
    (∃ xs b ys e, [blockInline, blockNoFile, blockEmpty] = xs ++ b :: ys ∧
       (∀ x ∈ xs, ∃ c, resolveBlock envW x = .ok c) ∧
       resolveBlock envW b = .error e ∧
       providerSetToRegistryAuth envW [blockInline, blockNoFile, blockEmpty] = .error e) :=
  claim_C5 envW [blockInline, blockNoFile, blockEmpty]

theorem providerAux_frame (env : Env) (ys : List AuthBlock)
    (acc m : List (String × AuthConfig)) (a : String)
    (hys : ∀ y ∈ ys, normalizeRegistryAddress y.address ≠ a)
    (hok : providerSetToRegistryAuthAux env acc ys = .ok m) :
    m.lookup a = acc.lookup a := by
  induction ys generalizing acc with
  | nil =>
    simp only [providerSetToRegistryAuthAux] at hok
    injection hok with h
    rw [← h]
  | cons q rest ih =>
    simp only [providerSetToRegistryAuthAux] at hok
    cases hrb : resolveBlock env q with
    | error e => rw [hrb] at hok; cases hok
    | ok cfg =>
      rw [hrb] at hok
      have hsa := resolveBlock_serverAddress env q cfg hrb
      have hne : a ≠ cfg.serverAddress := by
        rw [hsa]
        exact Ne.symm (hys q (List.mem_cons_self _ _))
      rw [ih _ (fun y hy => hys y (List.mem_cons_of_mem _ hy)) hok]
      exact lookup_mapInsert_ne _ _ hne

/-- Claim C6: when several blocks normalize to the same address, the final
mapping holds, at that address, exactly the resolved record of the last such
block — the whole record, with no field-level merging. -/
theorem claim_C6 (env : Env) (xs : List AuthBlock) (b : AuthBlock)
    (ys : List AuthBlock) (m : AuthConfigs) (a : String)
    (ha : normalizeRegistryAddress b.address = a)
    (hys : ∀ y ∈ ys, normalizeRegistryAddress y.address ≠ a)
    (hok : providerSetToRegistryAuth env (xs ++ b :: ys) = .ok m) :
    ∃ cfg, resolveBlock env b = .ok cfg ∧ m.configs.lookup a = some cfg := by
  obtain ⟨mc⟩ := m
  have hok2 : providerSetToRegistryAuthAux env [] (xs ++ b :: ys) = .ok mc := by
    unfold providerSetToRegistryAuth at hok
    cases haux : providerSetToRegistryAuthAux env [] (xs ++ b :: ys) with
    | error e => rw [haux] at hok; cases hok
    | ok l =>
      rw [haux] at hok
      dsimp only at hok
      injection hok with h
      injection h with h2
      rw [h2]
  rw [providerAux_append] at hok2
  cases hxs : providerSetToRegistryAuthAux env [] xs with
  | error e => rw [hxs] at hok2; cases hok2
  | ok acc1 =>
    rw [hxs] at hok2
    dsimp only at hok2
    simp only [providerSetToRegistryAuthAux] at hok2
    cases hrb : resolveBlock env b with
    | error e => rw [hrb] at hok2; cases hok2
    | ok cfg =>
      rw [hrb] at hok2
      have hsa : cfg.serverAddress = a :=
        (resolveBlock_serverAddress env b cfg hrb).trans ha
      refine ⟨cfg, rfl, ?_⟩
      rw [providerAux_frame env ys _ mc a hys hok2, ← hsa]
      exact lookup_mapInsert_self _ _ _

/-- Claim C6 witness: two inline blocks whose addresses normalize to
`"reg"`; the final mapping holds the later block's whole record. -/
theorem claim_C6_wit :
    ∃ cfg, resolveBlock envW blockDupB = .ok cfg ∧
      (AuthConfigs.mk [("reg", AuthConfig.mk "b" "pb" "" "reg" "")]).configs.lookup "reg" =
        some cfg :=
  claim_C6 envW [blockDupA] blockDupB []
    ⟨[("reg", AuthConfig.mk "b" "pb" "" "reg" "")]⟩ "reg"
    (by decide) (by simp) (by decide)

theorem alphabet_facts : ∀ v : Fin 64,
    sixbitOfChar (charOfSixbit v) = some v ∧ charOfSixbit v ≠ '=' ∧
    charOfSixbit v ≠ '\r' ∧ charOfSixbit v ≠ '\n' := by decide

theorem sixbit_round (v : Nat) (h : v < 64) :
    sixbitOfChar (charOfSixbit v) = some v := (alphabet_facts ⟨v, h⟩).1

theorem charOfSixbit_ne_pad (v : Nat) (h : v < 64) : charOfSixbit v ≠ '=' :=
  (alphabet_facts ⟨v, h⟩).2.1

theorem alphabetChars_length : alphabetChars.length = 64 := by decide

theorem charOfSixbit_ne_crlf (v : Nat) :
    charOfSixbit v ≠ '\r' ∧ charOfSixbit v ≠ '\n' := by
  by_cases h : v < 64
  · exact ⟨(alphabet_facts ⟨v, h⟩).2.2.1, (alphabet_facts ⟨v, h⟩).2.2.2⟩
  · have hq : charOfSixbit v = '?' := by
      unfold charOfSixbit
      exact List.getD_eq_default _ _ (by rw [alphabetChars_length]; omega)
    rw [hq]
    exact ⟨by decide, by decide⟩

theorem encode_mem : ∀ (bs : List Nat) (c : Char), c ∈ base64EncodeBytes bs →
    (∃ v, c = charOfSixbit v) ∨ c = '='
  | [], _, hc => by cases hc
  | [a], c, hc => by
    simp only [base64EncodeBytes, List.mem_cons, List.not_mem_nil, or_false] at hc
    rcases hc with rfl | rfl | rfl | rfl
    · exact Or.inl ⟨_, rfl⟩
    · exact Or.inl ⟨_, rfl⟩
    · exact Or.inr rfl
    · exact Or.inr rfl
  | [a, b], c, hc => by
    simp only [base64EncodeBytes, List.mem_cons, List.not_mem_nil, or_false] at hc
    rcases hc with rfl | rfl | rfl | rfl
    · exact Or.inl ⟨_, rfl⟩
    · exact Or.inl ⟨_, rfl⟩
    · exact Or.inl ⟨_, rfl⟩
    · exact Or.inr rfl
  | a :: b :: c2 :: rest, c, hc => by
    simp only [base64EncodeBytes, List.mem_cons] at hc
    rcases hc with rfl | rfl | rfl | rfl | h
    · exact Or.inl ⟨_, rfl⟩
    · exact Or.inl ⟨_, rfl⟩
    · exact Or.inl ⟨_, rfl⟩
    · exact Or.inl ⟨_, rfl⟩
    · exact encode_mem rest c h

theorem encode_filter_id (bs : List Nat) :
    (base64EncodeBytes bs).filter (fun c => !(c == '\r' || c == '\n')) =
      base64EncodeBytes bs := by
  rw [List.filter_eq_self]
  intro c hc
  rcases encode_mem bs c hc with ⟨v, rfl⟩ | rfl
  · have h2 := charOfSixbit_ne_crlf v
    simp [h2.1, h2.2]
  · decide

theorem decode_encode : ∀ (bs : List Nat), (∀ b ∈ bs, b < 256) →
    base64DecodeQuads (base64EncodeBytes bs) = .ok bs
  | [], _ => rfl
  | [a], h => by
    have ha : a < 256 := h a (by simp)
    have h1 := sixbit_round (a / 4) (by omega)
    have h2 := sixbit_round (a % 4 * 16) (by omega)
    simp only [base64EncodeBytes, base64DecodeQuads, h1, h2, and_self, if_true]
    have e1 : a / 4 * 4 + a % 4 * 16 / 16 = a := by omega
    rw [e1]
  | [a, b], h => by
    have ha : a < 256 := h a (by simp)
    have hb : b < 256 := h b (by simp)
    have h1 := sixbit_round (a / 4) (by omega)
    have h2 := sixbit_round (a % 4 * 16 + b / 16) (by omega)
    have h3 := sixbit_round (b % 16 * 4) (by omega)
    simp only [base64EncodeBytes, base64DecodeQuads, h1, h2, h3,
      charOfSixbit_ne_pad (b % 16 * 4) (by omega), and_self, if_true, if_false]
    have e1 : a / 4 * 4 + (a % 4 * 16 + b / 16) / 16 = a := by omega
    have e2 : (a % 4 * 16 + b / 16) % 16 * 16 + b % 16 * 4 / 4 = b := by omega
    rw [e1, e2]
  | a :: b :: c2 :: rest, h => by
    have ha : a < 256 := h a (by simp)
    have hb : b < 256 := h b (by simp)
    have hc : c2 < 256 := h c2 (by simp)
    have h1 := sixbit_round (a / 4) (by omega)
    have h2 := sixbit_round (a % 4 * 16 + b / 16) (by omega)
    have h3 := sixbit_round (b % 16 * 4 + c2 / 64) (by omega)
    have h4 := sixbit_round (c2 % 64) (by omega)
    have ih := decode_encode rest (fun x hx => h x (by simp [hx]))
    simp only [base64EncodeBytes, base64DecodeQuads, h1, h2, h3, h4, ih,
      charOfSixbit_ne_pad (b % 16 * 4 + c2 / 64) (by omega),
      charOfSixbit_ne_pad (c2 % 64) (by omega), and_self, if_true, if_false]
    have e1 : a / 4 * 4 + (a % 4 * 16 + b / 16) / 16 = a := by omega
    have e2 : (a % 4 * 16 + b / 16) % 16 * 16 + (b % 16 * 4 + c2 / 64) / 4 = b := by
      omega
    have e3 : (b % 16 * 4 + c2 / 64) % 4 * 64 + c2 % 64 = c2 := by omega
    rw [e1, e2, e3]

theorem base64Decode_encode (bs : List Nat) (h : ∀ b ∈ bs, b < 256) :
    base64Decode (base64Encode bs) = .ok bs := by
  unfold base64Decode base64Encode
  rw [show (String.mk (base64EncodeBytes bs)).data = base64EncodeBytes bs from rfl]
  rw [encode_filter_id]
  exact decode_encode bs h

theorem String_mk_data (s : String) : String.mk s.data = s := rfl

theorem bytesToStr_strBytes (s : String) : bytesToStr (strBytes s) = s := by
  unfold bytesToStr strBytes
  rw [List.map_map]
  rw [show s.data.map (Char.ofNat ∘ Char.toNat) = s.data.map id from
    List.map_congr_left (fun c _ => Char.ofNat_toNat c)]
  rw [List.map_id]

theorem charToNat_ofNat (b : Nat) (h : b < 256) : (Char.ofNat b).toNat = b := by
  have hv : b.isValidChar := Or.inl (by omega)
  unfold Char.ofNat
  rw [dif_pos hv]
  rfl

theorem splitOnFirst_append (sep : Char) (u p2 : List Char) (hu : sep ∉ u) :
    splitOnFirst sep (u ++ sep :: p2) = some (u, p2) := by
  induction u with
  | nil => simp [splitOnFirst]
  | cons c t ih =>
    have hc : c ≠ sep := fun hcs => hu (hcs ▸ List.mem_cons_self _ _)
    have ht : sep ∉ t := fun hts => hu (List.mem_cons_of_mem _ hts)
    rw [List.cons_append]
    unfold splitOnFirst
    rw [if_neg hc, ih ht]

theorem splitOnFirst_none (sep : Char) (l : List Char) (h : sep ∉ l) :
    splitOnFirst sep l = none := by
  induction l with
  | nil => rfl
  | cons c t ih =>
    have hc : c ≠ sep := fun hcs => h (hcs ▸ List.mem_cons_self _ _)
    have ht : sep ∉ t := fun hts => h (List.mem_cons_of_mem _ hts)
    simp only [splitOnFirst, if_neg hc, ih ht]

theorem idxOfChar_lt (c : Char) : ∀ (l : List Char) (v : Nat),
    idxOfChar c l = some v → v < l.length
  | [], v, h => by cases h
  | a :: t, v, h => by
    unfold idxOfChar at h
    by_cases hac : a = c
    · rw [if_pos hac] at h
      injection h with h2
      rw [← h2]
      simp
    · rw [if_neg hac] at h
      cases ht : idxOfChar c t with
      | none => rw [ht] at h; cases h
      | some w =>
        rw [ht] at h
        injection h with h2
        have := idxOfChar_lt c t w ht
        rw [← h2]
        simp only [List.length_cons]
        omega

theorem sixbitOfChar_lt (c : Char) (v : Nat) (h : sixbitOfChar c = some v) :
    v < 64 := by
  have h2 := idxOfChar_lt c alphabetChars v h
  rw [alphabetChars_length] at h2
  exact h2

theorem decodeQuads_bytes_lt : ∀ (cs : List Char) (bs : List Nat),
    base64DecodeQuads cs = .ok bs → ∀ b ∈ bs, b < 256
  | [], bs, h => by
    injection h with h2
    rw [← h2]
    intro b hb
    cases hb
  | [c1], bs, h => by cases h
  | [c1, c2], bs, h => by cases h
  | [c1, c2, c3], bs, h => by cases h
  | c1 :: c2 :: c3 :: c4 :: rest, bs, h => by
    unfold base64DecodeQuads at h
    cases hs1 : sixbitOfChar c1 with
    | none => rw [hs1] at h; cases h
    | some v1 =>
      cases hs2 : sixbitOfChar c2 with
      | none => rw [hs1, hs2] at h; cases h
      | some v2 =>
        rw [hs1, hs2] at h
        dsimp only at h
        have hv1 := sixbitOfChar_lt c1 v1 hs1
        have hv2 := sixbitOfChar_lt c2 v2 hs2
        by_cases h3 : c3 = '='
        · rw [if_pos h3] at h
          by_cases h4 : c4 = '=' ∧ rest = []
          · rw [if_pos h4] at h
            injection h with h2
            rw [← h2]
            intro b hb
            simp only [List.mem_singleton] at hb
            omega
          · rw [if_neg h4] at h; cases h
        · rw [if_neg h3] at h
          cases hs3 : sixbitOfChar c3 with
          | none => rw [hs3] at h; cases h
          | some v3 =>
            rw [hs3] at h
            dsimp only at h
            have hv3 := sixbitOfChar_lt c3 v3 hs3
            by_cases h4 : c4 = '='
            · rw [if_pos h4] at h
              by_cases h5 : rest = []
              · rw [if_pos h5] at h
                injection h with h2
                rw [← h2]
                intro b hb
                simp only [List.mem_cons, List.not_mem_nil, or_false] at hb
                rcases hb with rfl | rfl <;> omega
              · rw [if_neg h5] at h; cases h
            · rw [if_neg h4] at h
              cases hs4 : sixbitOfChar c4 with
              | none => rw [hs4] at h; cases h
              | some v4 =>
                rw [hs4] at h
                dsimp only at h
                have hv4 := sixbitOfChar_lt c4 v4 hs4
                cases hrest : base64DecodeQuads rest with
                | error e => rw [hrest] at h; cases h
                | ok bs2 =>
                  rw [hrest] at h
                  injection h with h2
                  rw [← h2]
                  intro b hb
                  simp only [List.mem_cons] at hb
                  rcases hb with rfl | rfl | rfl | hb2
                  · omega
                  · omega
                  · omega
                  · exact decodeQuads_bytes_lt rest bs2 hrest b hb2

theorem appendColon_data (u p : String) :
    (u ++ ":" ++ p).data = u.data ++ ':' :: p.data := by
  rw [String.data_append, String.data_append]
  rw [show (":" : String).data = [':'] from rfl]
  rw [List.append_assoc]
  rfl

/-- Claim C4: decoding a packed auth string base64-decodes it with the
standard padded alphabet and splits the decoded bytes on the first colon
into exactly two parts.  For every username `u` without a colon and every
password `p` (which may contain colons), decoding the base64 encoding of
`u:p` yields `(u, p)`; when the decoded bytes contain no colon (byte 58) at
all, decoding fails with the dedicated `malformedCredential` error
(`ErrCannotParseDockercfg`); an invalid base64 value surfaces the decode
error itself.  The `< 256` hypotheses say the strings are byte strings, as
Go strings are. -/
theorem claim_C4 :
    (∀ u p : String, ':' ∉ u.data → (∀ c ∈ u.data, c.toNat < 256) →
       (∀ c ∈ p.data, c.toNat < 256) →
       authDecode (base64Encode (strBytes (u ++ ":" ++ p))) = .ok (u, p)) ∧
    (∀ s : String, ∀ bs : List Nat, base64Decode s = .ok bs → (58 : Nat) ∉ bs →
       authDecode s = .error .malformedCredential) ∧
    (∀ s msg, base64Decode s = .error msg → authDecode s = .error (.base64 msg)) := by
  refine ⟨fun u p hu hu2 hp2 => ?_, fun s bs h hnc => ?_, fun s msg h => ?_⟩
  · have hb : ∀ b ∈ strBytes (u ++ ":" ++ p), b < 256 := by
      intro b hbm
      unfold strBytes at hbm
      obtain ⟨c, hc, rfl⟩ := List.mem_map.mp hbm
      rw [appendColon_data] at hc
      rcases List.mem_append.mp hc with hcu | hcc
      · exact hu2 c hcu
      · rcases List.mem_cons.mp hcc with rfl | hcp
        · decide
        · exact hp2 c hcp
    unfold authDecode
    rw [base64Decode_encode _ hb]
    dsimp only
    rw [bytesToStr_strBytes]
    unfold splitN2Colon
    rw [appendColon_data, splitOnFirst_append ':' u.data p.data hu]
  · have hb : ∀ b ∈ bs, b < 256 := decodeQuads_bytes_lt _ bs h
    have hnocolon : ':' ∉ (bytesToStr bs).data := by
      unfold bytesToStr
      rw [show (String.mk (bs.map Char.ofNat)).data = bs.map Char.ofNat from rfl]
      intro hmem
      obtain ⟨b, hb2, heq⟩ := List.mem_map.mp hmem
      have h58 : b = 58 := by
        have h3 := charToNat_ofNat b (hb b hb2)
        rw [heq] at h3
        rw [show (':' : Char).toNat = 58 from rfl] at h3
        omega
      exact hnc (h58 ▸ hb2)
    unfold authDecode
    rw [h]
    dsimp only
    unfold splitN2Colon
    rw [splitOnFirst_none ':' _ hnocolon]
  · unfold authDecode
    rw [h]

/-- Claim C4 witness: round trip at `user` and `pa:ss` (password containing
a colon), the no-colon case at a concrete packed value with a well-formed
base64 encoding, and the invalid-base64 case at a concrete non-base64
string. -/
theorem claim_C4_wit :
    authDecode (base64Encode (strBytes ("user" ++ ":" ++ "pa:ss"))) =
      .ok ("user", "pa:ss") ∧
    authDecode authNoColon = .error .malformedCredential ∧
    authDecode "not-valid-base64!!" = .error (.base64 "illegal base64 data") :=
  ⟨claim_C4.1 "user" "pa:ss" (by decide) (by decide) (by decide),
   claim_C4.2.1 authNoColon (strBytes "nocolon") (by decide) (by decide),
   claim_C4.2.2 "not-valid-base64!!" "illegal base64 data" (by decide)⟩
